import Mathlib

/-!
Verification of the `ByteString` byte-buffer type (`src/bytestr.rs`).

A shallow embedding of the Rust module `bytestr.rs` from the `rust-csv`
repository.  The module defines `ByteString(Vec<u8>)`, an owned byte buffer
with value semantics, used by a CSV parser to hold raw field data in
arbitrary 8-bit encodings.

Modelling conventions:
* A Rust `Vec<u8>` / `&[u8]` is a `List Nat` (byte values; operations on the
  buffer never depend on an upper bound, and the UTF-8 validator rejects any
  value outside `0..255` on its own).
* A Rust `String` / `&str` is `RString`: its UTF-8 byte storage together with
  the well-formedness invariant (a Rust `String` is exactly a `Vec<u8>` that
  the library keeps valid UTF-8).
* Fallible standard-library operations (`String::from_utf8`, the
  bounds-checked `slice_*_or_fail` slice methods that abort on violation)
  are modelled as `Except` / `Option` valued functions; `none` stands for
  the fatal out-of-bounds abort.
-/

namespace RustCsv

/-! ## UTF-8 well-formedness

`bytestr.rs` delegates UTF-8 validation to `String::from_utf8` from the Rust
standard library, which is not part of this repository.  Both the executable
validator and the declarative description of well-formed UTF-8 are therefore
modelled here, and proved equivalent (`validUtf8_iff_wellFormed`). -/

/-- A Unicode scalar value: a code point below `0x110000` that is not a
surrogate (`0xD800 ..= 0xDFFF`). -/
def Utf8Scalar (c : Nat) : Prop :=
  c < 0x110000 ∧ ¬(0xD800 ≤ c ∧ c ≤ 0xDFFF)

instance (c : Nat) : Decidable (Utf8Scalar c) := by
  unfold Utf8Scalar; infer_instance

/-- The UTF-8 encoding of a single Unicode scalar value, as mandated by the
UTF-8 standard (1 to 4 bytes, shortest form). -/
def utf8EncodeChar (c : Nat) : List Nat :=
  if c < 0x80 then
    [c]
  else if c < 0x800 then
    [0xC0 + c / 64, 0x80 + c % 64]
  else if c < 0x10000 then
    [0xE0 + c / 4096, 0x80 + (c / 64) % 64, 0x80 + c % 64]
  else
    [0xF0 + c / 262144, 0x80 + (c / 4096) % 64, 0x80 + (c / 64) % 64,
     0x80 + c % 64]

/-- Modelled from the spec: "Well-formed UTF-8: a byte sequence that decodes
under the UTF-8 standard to a valid sequence of Unicode scalar values with no
invalid or truncated encodings."  A byte list is well formed iff it is a
concatenation of encodings of Unicode scalar values. -/
inductive Utf8WellFormed : List Nat → Prop
  | nil : Utf8WellFormed []
  | cons (c : Nat) (rest : List Nat) :
      Utf8Scalar c → Utf8WellFormed rest →
      Utf8WellFormed (utf8EncodeChar c ++ rest)

/-- Modelled from the spec: one step of the UTF-8 validation loop used by
the Rust standard library's `String::from_utf8` (`run_utf8_validation`).
Given the first byte and the remaining bytes, it consumes one encoded
character and returns the bytes after it, or `none` on an invalid or
truncated sequence.  It is the standard byte-range table: ASCII bytes stand
alone, lead bytes `C2..DF`, `E0`, `E1..EC`, `ED`, `EE..EF`, `F0`, `F1..F3`,
`F4` demand the appropriate continuation bytes, everything else (stray
continuation bytes, overlong lead bytes `C0`/`C1`, lead bytes above `F4`)
is rejected. -/
def utf8Step (b0 : Nat) (rest : List Nat) : Option (List Nat) :=
  if b0 ≤ 0x7F then some rest
  else if 0xC2 ≤ b0 ∧ b0 ≤ 0xDF then
    match rest with
    | b1 :: rest2 =>
      if 0x80 ≤ b1 ∧ b1 ≤ 0xBF then some rest2 else none
    | [] => none
  else if b0 = 0xE0 then
    match rest with
    | b1 :: b2 :: rest3 =>
      if (0xA0 ≤ b1 ∧ b1 ≤ 0xBF) ∧ (0x80 ≤ b2 ∧ b2 ≤ 0xBF) then some rest3
      else none
    | _ => none
  else if (0xE1 ≤ b0 ∧ b0 ≤ 0xEC) ∨ (0xEE ≤ b0 ∧ b0 ≤ 0xEF) then
    match rest with
    | b1 :: b2 :: rest3 =>
      if (0x80 ≤ b1 ∧ b1 ≤ 0xBF) ∧ (0x80 ≤ b2 ∧ b2 ≤ 0xBF) then some rest3
      else none
    | _ => none
  else if b0 = 0xED then
    match rest with
    | b1 :: b2 :: rest3 =>
      if (0x80 ≤ b1 ∧ b1 ≤ 0x9F) ∧ (0x80 ≤ b2 ∧ b2 ≤ 0xBF) then some rest3
      else none
    | _ => none
  else if b0 = 0xF0 then
    match rest with
    | b1 :: b2 :: b3 :: rest4 =>
      if (0x90 ≤ b1 ∧ b1 ≤ 0xBF) ∧ (0x80 ≤ b2 ∧ b2 ≤ 0xBF) ∧
          (0x80 ≤ b3 ∧ b3 ≤ 0xBF) then some rest4
      else none
    | _ => none
  else if 0xF1 ≤ b0 ∧ b0 ≤ 0xF3 then
    match rest with
    | b1 :: b2 :: b3 :: rest4 =>
      if (0x80 ≤ b1 ∧ b1 ≤ 0xBF) ∧ (0x80 ≤ b2 ∧ b2 ≤ 0xBF) ∧
          (0x80 ≤ b3 ∧ b3 ≤ 0xBF) then some rest4
      else none
    | _ => none
  else if b0 = 0xF4 then
    match rest with
    | b1 :: b2 :: b3 :: rest4 =>
      if (0x80 ≤ b1 ∧ b1 ≤ 0x8F) ∧ (0x80 ≤ b2 ∧ b2 ≤ 0xBF) ∧
          (0x80 ≤ b3 ∧ b3 ≤ 0xBF) then some rest4
      else none
    | _ => none
  else none

theorem utf8Step_length {b0 : Nat} {rest r : List Nat}
    (h : utf8Step b0 rest = some r) : r.length ≤ rest.length := by
  unfold utf8Step at h
  repeat' split at h
  all_goals simp_all
  all_goals omega

/-- Modelled from the spec: the UTF-8 validation loop of
`String::from_utf8` — consume one encoded character at a time with
`utf8Step` until the input is exhausted (valid) or a step fails
(invalid). -/
def validUtf8 : List Nat → Bool
  | [] => true
  | b0 :: rest =>
    match hstep : utf8Step b0 rest with
    | some rest' => validUtf8 rest'
    | none => false
termination_by l => l.length
decreasing_by
  have := utf8Step_length hstep
  simp only [List.length_cons]
  omega

/-! ## Rust strings

A Rust `String` is a `Vec<u8>` whose content the library keeps valid UTF-8;
`&str` is a borrowed view of the same storage. -/

/-- A Rust `String` / `&str`: UTF-8 byte storage plus its invariant. -/
structure RString where
  vec : List Nat
  valid : validUtf8 vec = true

theorem RString.ext_vec {s t : RString} (h : s.vec = t.vec) : s = t := by
  cases s; cases t; simp_all

/-- Modelled from the spec: `String::from_utf8` — "attempts UTF-8 validation
over the entire byte sequence"; on success the byte sequence is already the
text's storage (no copy), on failure the input vector is handed back. -/
def fromUtf8 (v : List Nat) : Except (List Nat) RString :=
  if h : validUtf8 v = true then .ok ⟨v, h⟩ else .error v

/-! ## The `IntoVector` trait

`trait IntoVector<T> { fn into_vec(self) -> Vec<T>; }` with its four
impls: `Vec<u8>` (moved), `&[u8]` (copied via `to_vec`), `&str`
(`into_string().into_bytes()`), `String` (`into_bytes()`).  Each impl is
one function. -/

/-- Rust `impl<T> IntoVector<T> for Vec<T>`: `self`. -/
def intoVecOfVec (v : List Nat) : List Nat := v

/-- Rust `impl<'a, T: Clone> IntoVector<T> for &'a [T]`: `self.to_vec()`. -/
def intoVecOfSlice (s : List Nat) : List Nat := s

/-- Rust `impl<'a> IntoVector<u8> for &'a str`:
`self.into_string().into_bytes()` — the UTF-8 byte storage. -/
def intoVecOfStr (s : RString) : List Nat := s.vec

/-- Rust `impl<'a> IntoVector<u8> for String`: `self.into_bytes()`. -/
def intoVecOfString (s : RString) : List Nat := s.vec

/-! ## The `ByteString` type -/

/-- Rust `pub struct ByteString(Vec<u8>);` — an owned, unadulterated byte
string. -/
structure ByteString where
  bytes : List Nat

namespace ByteString

/-- Rust `ByteString::from_bytes::<S: IntoVector<u8>>(bs)`:
`ByteString(bs.into_vec())`.  The polymorphic constructor is embedded at
the already-converted vector; the four `IntoVector` impls above supply the
conversion for each admissible input shape. -/
def from_bytes (bs : List Nat) : ByteString := ⟨bs⟩

/-- Rust `ByteString::into_bytes(self)`: `self.0`. -/
def into_bytes (b : ByteString) : List Nat := b.bytes

/-- Rust `impl Deref<[u8]> for ByteString`: `&*self.0`. -/
def deref (b : ByteString) : List Nat := b.bytes

/-- Rust `ByteString::as_bytes(&self)`: `&**self` (through the `Deref` impl). -/
def as_bytes (b : ByteString) : List Nat := b.deref

/-- Rust `impl AsSlice<u8> for ByteString`: `self.as_bytes()`. -/
def as_slice (b : ByteString) : List Nat := b.as_bytes

/-- Rust `ByteString::len(&self)`: `self.as_bytes().len()`. -/
def len (b : ByteString) : Nat := b.as_bytes.length

/-- Rust `ByteString::is_empty(&self)`: `self.len() == 0`. -/
def is_empty (b : ByteString) : Bool := b.len == 0

/-- Rust `ByteString::into_utf8_string(self)`:
`String::from_utf8(self.into_bytes()).map_err(ByteString)`. -/
def into_utf8_string (b : ByteString) : Except ByteString RString :=
  (fromUtf8 b.into_bytes).mapError ByteString.mk

end ByteString

/-! ## Derived value semantics

`#[deriving(Clone, PartialEq, Eq, PartialOrd, Ord)]` on the one-field tuple
struct delegates to `Vec<u8>`, whose `PartialEq`/`Ord` are the elementwise
slice comparison loops of the standard library. -/

/-- Rust `PartialEq` for `&[u8]`: equal lengths and elementwise equal bytes
(the standard library's elementwise comparison loop). -/
def beqBytes : List Nat → List Nat → Bool
  | [], [] => true
  | x :: xs, y :: ys => x == y && beqBytes xs ys
  | _, _ => false

/-- Rust `Ord` for `&[u8]`: compare elementwise for the common prefix, then
compare lengths (the standard library's slice comparison loop). -/
def cmpBytes : List Nat → List Nat → Ordering
  | [], [] => .eq
  | [], _ :: _ => .lt
  | _ :: _, [] => .gt
  | x :: xs, y :: ys =>
    match compare x y with
    | .eq => cmpBytes xs ys
    | o => o

namespace ByteString

/-- The derived `PartialEq` for `ByteString`: compares the wrapped vectors. -/
def beq (b1 b2 : ByteString) : Bool := beqBytes b1.bytes b2.bytes

/-- The derived `Ord` for `ByteString`: compares the wrapped vectors. -/
def cmp (b1 b2 : ByteString) : Ordering := cmpBytes b1.bytes b2.bytes

/-- The byte stream `impl Hash for [u8]` feeds into the hasher (`Writer`):
the slice length followed by each element in order. -/
def hashStream (b : ByteString) : List Nat :=
  b.as_slice.length :: b.as_slice

/-- Rust `impl<H: hash::Writer> hash::Hash<H> for ByteString`:
`self.as_slice().hash(hasher)`.  A hasher is modelled extensionally as a
function `hf` from the byte stream it is fed to its final value. -/
def hash {H : Type} (hf : List Nat → H) (b : ByteString) : H :=
  hf b.hashStream

end ByteString

/-! ## Slicing

The `ops::Slice` impl delegates to the standard library's
`slice_from_or_fail` / `slice_to_or_fail` / `slice_or_fail` on `[u8]`,
which return the requested half-open sub-range and abort the process on a
bounds violation.  The abort is modelled as `none`. -/

/-- Modelled from the spec: std `[u8]::slice_or_fail(start, end)` — "return
a borrowed view over the specified half-open range"; "offsets must satisfy
`0 <= start <= end <= len()`; a violation is a fatal precondition failure"
(`none`). -/
def sliceOrFailList (l : List Nat) (start stop : Nat) : Option (List Nat) :=
  if start ≤ stop ∧ stop ≤ l.length then
    some ((l.drop start).take (stop - start))
  else none

/-- Modelled from the spec: std `[u8]::slice_from_or_fail(start)` — the
half-open range from `start` to the end of the slice, fatal on
`start > len()`. -/
def sliceFromOrFailList (l : List Nat) (start : Nat) : Option (List Nat) :=
  if start ≤ l.length then some (l.drop start) else none

/-- Modelled from the spec: std `[u8]::slice_to_or_fail(end)` — the
half-open range from the beginning to `end`, fatal on `end > len()`. -/
def sliceToOrFailList (l : List Nat) (stop : Nat) : Option (List Nat) :=
  if stop ≤ l.length then some (l.take stop) else none

namespace ByteString

/-- Rust `ops::Slice::as_slice_`: `self.as_slice()`. -/
def as_slice_ (b : ByteString) : List Nat := b.as_slice

/-- Rust `ops::Slice::slice_from_or_fail`:
`self.as_slice().slice_from_or_fail(start)`. -/
def slice_from_or_fail (b : ByteString) (start : Nat) : Option (List Nat) :=
  sliceFromOrFailList b.as_slice start

/-- Rust `ops::Slice::slice_to_or_fail`:
`self.as_slice().slice_to_or_fail(end)`. -/
def slice_to_or_fail (b : ByteString) (stop : Nat) : Option (List Nat) :=
  sliceToOrFailList b.as_slice stop

/-- Rust `ops::Slice::slice_or_fail`:
`self.as_slice().slice_or_fail(start, end)`. -/
def slice_or_fail (b : ByteString) (start stop : Nat) : Option (List Nat) :=
  sliceOrFailList b.as_slice start stop

end ByteString

/-- Rust `str::as_bytes` on the `&str` obtained from `Str::as_slice`: the UTF-8
byte storage of the text value. -/
def strAsBytes (s : RString) : List Nat := s.vec

/-- Rust `impl<S: Str> Equiv<S> for ByteString`:
`self.as_bytes() == other.as_slice().as_bytes()` (slice `PartialEq`). -/
def ByteString.equiv (b : ByteString) (s : RString) : Bool :=
  beqBytes b.as_bytes (strAsBytes s)

/-! ## `FromIterator`

`impl FromIterator<u8> for ByteString` collects the produced sequence into
a `Vec` and wraps it.  A Rust iterator is modelled as a state type `S` with
a `next : S → Option (Nat × S)` step function; `Produces next s l` says the
iterator started at `s` yields exactly the finite sequence `l`.  `collect`
is run with enough fuel for the finite sequence. -/

/-- The finite sequence an iterator produces from a given state. -/
inductive Produces {S : Type} (next : S → Option (Nat × S)) :
    S → List Nat → Prop
  | done {s : S} : next s = none → Produces next s []
  | step {s s' : S} {x : Nat} {l : List Nat} :
      next s = some (x, s') → Produces next s' l → Produces next s (x :: l)

/-- Rust `Iterator::collect::<Vec<_>>` — drain the iterator into a vector,
in production order (fuelled, since the embedding is total). -/
def collectFuel {S : Type} (next : S → Option (Nat × S)) :
    Nat → S → List Nat
  | 0, _ => []
  | fuel + 1, s =>
    match next s with
    | none => []
    | some (x, s') => x :: collectFuel next fuel s'

/-- Rust `FromIterator::from_iter`:
`ByteString::from_bytes(it.collect::<Vec<_>>())`. -/
def ByteString.from_iter {S : Type} (next : S → Option (Nat × S))
    (fuel : Nat) (s0 : S) : ByteString :=
  ByteString.from_bytes (collectFuel next fuel s0)

/-! ## Equivalence of the UTF-8 validator and declarative well-formedness -/

theorem utf8EncodeChar_eq_one {c : Nat} (h : c < 0x80) :
    utf8EncodeChar c = [c] := by
  unfold utf8EncodeChar
  rw [if_pos h]

theorem utf8EncodeChar_eq_two {c : Nat} (h1 : 0x80 ≤ c) (h2 : c < 0x800) :
    utf8EncodeChar c = [0xC0 + c / 64, 0x80 + c % 64] := by
  unfold utf8EncodeChar
  rw [if_neg (by omega), if_pos h2]

theorem utf8EncodeChar_eq_three {c : Nat} (h1 : 0x800 ≤ c)
    (h2 : c < 0x10000) :
    utf8EncodeChar c =
      [0xE0 + c / 4096, 0x80 + (c / 64) % 64, 0x80 + c % 64] := by
  unfold utf8EncodeChar
  rw [if_neg (by omega), if_neg (by omega), if_pos h2]

theorem utf8EncodeChar_eq_four {c : Nat} (h1 : 0x10000 ≤ c) :
    utf8EncodeChar c =
      [0xF0 + c / 262144, 0x80 + (c / 4096) % 64, 0x80 + (c / 64) % 64,
       0x80 + c % 64] := by
  unfold utf8EncodeChar
  rw [if_neg (by omega), if_neg (by omega), if_neg (by omega)]

theorem validUtf8_nil : validUtf8 [] = true := by
  rw [validUtf8]

theorem validUtf8_cons_some {b0 : Nat} {rest r : List Nat}
    (h : utf8Step b0 rest = some r) :
    validUtf8 (b0 :: rest) = validUtf8 r := by
  rw [validUtf8]
  split
  · next r' h' => rw [h] at h'; cases h'; rfl
  · next h' => rw [h] at h'; cases h'

theorem validUtf8_cons_none {b0 : Nat} {rest : List Nat}
    (h : utf8Step b0 rest = none) :
    validUtf8 (b0 :: rest) = false := by
  rw [validUtf8]
  split
  · next r' h' => rw [h] at h'; cases h'
  · rfl

theorem validUtf8_cons (b0 : Nat) (rest : List Nat) :
    validUtf8 (b0 :: rest) = (utf8Step b0 rest).elim false validUtf8 := by
  cases h : utf8Step b0 rest with
  | none => rw [validUtf8_cons_none h]; rfl
  | some r => rw [validUtf8_cons_some h]; rfl

/-! Successful-step lemmas, one per lead-byte class. -/

theorem utf8Step_one {b0 : Nat} (h : b0 ≤ 0x7F) (l : List Nat) :
    utf8Step b0 l = some l := by
  simp only [utf8Step]
  rw [if_pos h]

theorem utf8Step_two {b0 b1 : Nat} (h0 : 0xC2 ≤ b0 ∧ b0 ≤ 0xDF)
    (h1 : 0x80 ≤ b1 ∧ b1 ≤ 0xBF) (l : List Nat) :
    utf8Step b0 (b1 :: l) = some l := by
  simp only [utf8Step]
  rw [if_neg (by omega), if_pos h0, if_pos h1]

theorem utf8Step_three_e0 {b0 b1 b2 : Nat} (h0 : b0 = 0xE0)
    (h1 : 0xA0 ≤ b1 ∧ b1 ≤ 0xBF) (h2 : 0x80 ≤ b2 ∧ b2 ≤ 0xBF)
    (l : List Nat) : utf8Step b0 (b1 :: b2 :: l) = some l := by
  simp only [utf8Step]
  rw [if_neg (by omega), if_neg (by omega), if_pos h0, if_pos ⟨h1, h2⟩]

theorem utf8Step_three_mid {b0 b1 b2 : Nat}
    (h0 : (0xE1 ≤ b0 ∧ b0 ≤ 0xEC) ∨ (0xEE ≤ b0 ∧ b0 ≤ 0xEF))
    (h1 : 0x80 ≤ b1 ∧ b1 ≤ 0xBF) (h2 : 0x80 ≤ b2 ∧ b2 ≤ 0xBF)
    (l : List Nat) : utf8Step b0 (b1 :: b2 :: l) = some l := by
  simp only [utf8Step]
  rw [if_neg (by omega), if_neg (by omega), if_neg (by omega), if_pos h0,
    if_pos ⟨h1, h2⟩]

theorem utf8Step_three_ed {b0 b1 b2 : Nat} (h0 : b0 = 0xED)
    (h1 : 0x80 ≤ b1 ∧ b1 ≤ 0x9F) (h2 : 0x80 ≤ b2 ∧ b2 ≤ 0xBF)
    (l : List Nat) : utf8Step b0 (b1 :: b2 :: l) = some l := by
  simp only [utf8Step]
  rw [if_neg (by omega), if_neg (by omega), if_neg (by omega),
    if_neg (by omega), if_pos h0, if_pos ⟨h1, h2⟩]

theorem utf8Step_four_f0 {b0 b1 b2 b3 : Nat} (h0 : b0 = 0xF0)
    (h1 : 0x90 ≤ b1 ∧ b1 ≤ 0xBF) (h2 : 0x80 ≤ b2 ∧ b2 ≤ 0xBF)
    (h3 : 0x80 ≤ b3 ∧ b3 ≤ 0xBF) (l : List Nat) :
    utf8Step b0 (b1 :: b2 :: b3 :: l) = some l := by
  simp only [utf8Step]
  rw [if_neg (by omega), if_neg (by omega), if_neg (by omega),
    if_neg (by omega), if_neg (by omega), if_pos h0, if_pos ⟨h1, h2, h3⟩]

theorem utf8Step_four_mid {b0 b1 b2 b3 : Nat}
    (h0 : 0xF1 ≤ b0 ∧ b0 ≤ 0xF3) (h1 : 0x80 ≤ b1 ∧ b1 ≤ 0xBF)
    (h2 : 0x80 ≤ b2 ∧ b2 ≤ 0xBF) (h3 : 0x80 ≤ b3 ∧ b3 ≤ 0xBF)
    (l : List Nat) : utf8Step b0 (b1 :: b2 :: b3 :: l) = some l := by
  simp only [utf8Step]
  rw [if_neg (by omega), if_neg (by omega), if_neg (by omega),
    if_neg (by omega), if_neg (by omega), if_neg (by omega), if_pos h0,
    if_pos ⟨h1, h2, h3⟩]

theorem utf8Step_four_f4 {b0 b1 b2 b3 : Nat} (h0 : b0 = 0xF4)
    (h1 : 0x80 ≤ b1 ∧ b1 ≤ 0x8F) (h2 : 0x80 ≤ b2 ∧ b2 ≤ 0xBF)
    (h3 : 0x80 ≤ b3 ∧ b3 ≤ 0xBF) (l : List Nat) :
    utf8Step b0 (b1 :: b2 :: b3 :: l) = some l := by
  simp only [utf8Step]
  rw [if_neg (by omega), if_neg (by omega), if_neg (by omega),
    if_neg (by omega), if_neg (by omega), if_neg (by omega),
    if_neg (by omega), if_pos h0, if_pos ⟨h1, h2, h3⟩]

/-- Completeness of the validator on a single scalar: prepending the
encoding of a Unicode scalar value does not change validity. -/
theorem validUtf8_encodeChar_append (c : Nat) (hc : Utf8Scalar c)
    (l : List Nat) : validUtf8 (utf8EncodeChar c ++ l) = validUtf8 l := by
  obtain ⟨hlt, hsur⟩ := hc
  rcases Nat.lt_or_ge c 0x80 with h1 | h1
  · rw [utf8EncodeChar_eq_one h1]
    simpa using validUtf8_cons_some (utf8Step_one (by omega) l)
  rcases Nat.lt_or_ge c 0x800 with h2 | h2
  · rw [utf8EncodeChar_eq_two h1 h2]
    simpa using validUtf8_cons_some
      (@utf8Step_two (0xC0 + c / 64) (0x80 + c % 64) ⟨by omega, by omega⟩
        ⟨by omega, by omega⟩ l)
  rcases Nat.lt_or_ge c 0x10000 with h3 | h3
  · rw [utf8EncodeChar_eq_three h2 h3]
    rcases Nat.lt_or_ge c 0x1000 with h4 | h4
    · -- lead byte `E0`
      simpa using validUtf8_cons_some
        (@utf8Step_three_e0 (0xE0 + c / 4096) (0x80 + (c / 64) % 64)
          (0x80 + c % 64) (by omega)
          ⟨by omega, by omega⟩ ⟨by omega, by omega⟩ l)
    rcases Nat.lt_or_ge c 0xD000 with h5 | h5
    · -- lead bytes `E1..EC`
      simpa using validUtf8_cons_some
        (@utf8Step_three_mid (0xE0 + c / 4096) (0x80 + (c / 64) % 64)
          (0x80 + c % 64) (by omega)
          ⟨by omega, by omega⟩ ⟨by omega, by omega⟩ l)
    rcases Nat.lt_or_ge c 0xE000 with h6 | h6
    · -- lead byte `ED` (the scalar hypothesis rules out surrogates)
      simpa using validUtf8_cons_some
        (@utf8Step_three_ed (0xE0 + c / 4096) (0x80 + (c / 64) % 64)
          (0x80 + c % 64) (by omega)
          ⟨by omega, by omega⟩ ⟨by omega, by omega⟩ l)
    · -- lead bytes `EE..EF`
      simpa using validUtf8_cons_some
        (@utf8Step_three_mid (0xE0 + c / 4096) (0x80 + (c / 64) % 64)
          (0x80 + c % 64) (by omega)
          ⟨by omega, by omega⟩ ⟨by omega, by omega⟩ l)
  · rw [utf8EncodeChar_eq_four h3]
    rcases Nat.lt_or_ge c 0x40000 with h4 | h4
    · -- lead byte `F0`
      simpa using validUtf8_cons_some
        (@utf8Step_four_f0 (0xF0 + c / 262144) (0x80 + (c / 4096) % 64)
          (0x80 + (c / 64) % 64) (0x80 + c % 64) (by omega)
          ⟨by omega, by omega⟩ ⟨by omega, by omega⟩ ⟨by omega, by omega⟩ l)
    rcases Nat.lt_or_ge c 0x100000 with h5 | h5
    · -- lead bytes `F1..F3`
      simpa using validUtf8_cons_some
        (@utf8Step_four_mid (0xF0 + c / 262144) (0x80 + (c / 4096) % 64)
          (0x80 + (c / 64) % 64) (0x80 + c % 64) ⟨by omega, by omega⟩
          ⟨by omega, by omega⟩ ⟨by omega, by omega⟩ ⟨by omega, by omega⟩ l)
    · -- lead byte `F4`
      simpa using validUtf8_cons_some
        (@utf8Step_four_f4 (0xF0 + c / 262144) (0x80 + (c / 4096) % 64)
          (0x80 + (c / 64) % 64) (0x80 + c % 64) (by omega)
          ⟨by omega, by omega⟩ ⟨by omega, by omega⟩ ⟨by omega, by omega⟩ l)

/-- Completeness: every well-formed byte sequence passes the validator. -/
theorem validUtf8_complete {l : List Nat} (h : Utf8WellFormed l) :
    validUtf8 l = true := by
  induction h with
  | nil => exact validUtf8_nil
  | cons c rest hc _ ih => rw [validUtf8_encodeChar_append c hc rest, ih]

set_option maxHeartbeats 1600000 in
/-- Inversion of a successful validation step: the consumed bytes fall in
exactly one of the four lead-byte classes, with the corresponding
continuation-byte ranges. -/
theorem utf8Step_inv {b0 : Nat} {rest r : List Nat}
    (h : utf8Step b0 rest = some r) :
    (b0 ≤ 0x7F ∧ r = rest) ∨
    (∃ b1, rest = b1 :: r ∧ 0xC2 ≤ b0 ∧ b0 ≤ 0xDF ∧
      0x80 ≤ b1 ∧ b1 ≤ 0xBF) ∨
    (∃ b1 b2, rest = b1 :: b2 :: r ∧ 0x80 ≤ b2 ∧ b2 ≤ 0xBF ∧
      ((b0 = 0xE0 ∧ 0xA0 ≤ b1 ∧ b1 ≤ 0xBF) ∨
       (((0xE1 ≤ b0 ∧ b0 ≤ 0xEC) ∨ (0xEE ≤ b0 ∧ b0 ≤ 0xEF)) ∧
         0x80 ≤ b1 ∧ b1 ≤ 0xBF) ∨
       (b0 = 0xED ∧ 0x80 ≤ b1 ∧ b1 ≤ 0x9F))) ∨
    (∃ b1 b2 b3, rest = b1 :: b2 :: b3 :: r ∧
      0x80 ≤ b2 ∧ b2 ≤ 0xBF ∧ 0x80 ≤ b3 ∧ b3 ≤ 0xBF ∧
      ((b0 = 0xF0 ∧ 0x90 ≤ b1 ∧ b1 ≤ 0xBF) ∨
       (0xF1 ≤ b0 ∧ b0 ≤ 0xF3 ∧ 0x80 ≤ b1 ∧ b1 ≤ 0xBF) ∨
       (b0 = 0xF4 ∧ 0x80 ≤ b1 ∧ b1 ≤ 0x8F))) := by
  match rest with
  | [] =>
    simp only [utf8Step] at h
    repeat' split at h
    all_goals simp_all
  | [b1] =>
    simp only [utf8Step] at h
    repeat' split at h
    all_goals simp_all
  | [b1, b2] =>
    simp only [utf8Step] at h
    repeat' split at h
    all_goals simp_all
    all_goals tauto
  | b1 :: b2 :: b3 :: rest4 =>
    simp only [utf8Step] at h
    repeat' split at h
    all_goals simp_all
    all_goals tauto

theorem validUtf8_sound_aux :
    ∀ (n : Nat) (l : List Nat), l.length ≤ n →
      validUtf8 l = true → Utf8WellFormed l := by
  intro n
  induction n with
  | zero =>
    intro l hl _
    cases l with
    | nil => exact .nil
    | cons b rest => simp at hl
  | succ n ih =>
    intro l hl hv
    cases l with
    | nil => exact .nil
    | cons b0 rest =>
      cases hstep : utf8Step b0 rest with
      | none => rw [validUtf8_cons_none hstep] at hv; cases hv
      | some r =>
        rw [validUtf8_cons_some hstep] at hv
        have hlen := utf8Step_length hstep
        have hwf : Utf8WellFormed r := by
          refine ih r ?_ hv
          simp only [List.length_cons] at hl
          omega
        rcases utf8Step_inv hstep with
          ⟨hb, hr⟩ | ⟨b1, hrest, h1, h2, h3, h4⟩ |
          ⟨b1, b2, hrest, hc2a, hc2b, hcase⟩ |
          ⟨b1, b2, b3, hrest, hc2a, hc2b, hc3a, hc3b, hcase⟩
        · subst hr
          have hwf2 := Utf8WellFormed.cons b0 r
            ⟨by omega, by omega⟩ hwf
          rw [utf8EncodeChar_eq_one (by omega)] at hwf2
          simpa using hwf2
        · subst hrest
          have hc : (b0 - 0xC0) * 64 + (b1 - 0x80) < 0x800 := by omega
          have henc : utf8EncodeChar ((b0 - 0xC0) * 64 + (b1 - 0x80)) =
              [b0, b1] := by
            rw [utf8EncodeChar_eq_two (by omega) hc]
            simp only [List.cons.injEq, and_true]
            omega
          have hwf2 := Utf8WellFormed.cons
            ((b0 - 0xC0) * 64 + (b1 - 0x80)) r
            ⟨by omega, by omega⟩ hwf
          rw [henc] at hwf2
          simpa using hwf2
        · subst hrest
          have henc : utf8EncodeChar
              ((b0 - 0xE0) * 4096 + (b1 - 0x80) * 64 + (b2 - 0x80)) =
              [b0, b1, b2] := by
            rw [utf8EncodeChar_eq_three (by omega) (by omega)]
            simp only [List.cons.injEq, and_true]
            omega
          have hwf2 := Utf8WellFormed.cons
            ((b0 - 0xE0) * 4096 + (b1 - 0x80) * 64 + (b2 - 0x80)) r
            ⟨by omega, by omega⟩ hwf
          rw [henc] at hwf2
          simpa using hwf2
        · subst hrest
          have henc : utf8EncodeChar
              ((b0 - 0xF0) * 262144 + (b1 - 0x80) * 4096 +
                (b2 - 0x80) * 64 + (b3 - 0x80)) = [b0, b1, b2, b3] := by
            rw [utf8EncodeChar_eq_four (by omega)]
            simp only [List.cons.injEq, and_true]
            omega
          have hwf2 := Utf8WellFormed.cons
            ((b0 - 0xF0) * 262144 + (b1 - 0x80) * 4096 +
              (b2 - 0x80) * 64 + (b3 - 0x80)) r
            ⟨by omega, by omega⟩ hwf
          rw [henc] at hwf2
          simpa using hwf2

/-- Soundness: every byte sequence the validator accepts is well-formed
UTF-8. -/
theorem validUtf8_sound {l : List Nat} (h : validUtf8 l = true) :
    Utf8WellFormed l :=
  validUtf8_sound_aux l.length l (Nat.le_refl _) h

/-- The executable validator decides exactly the declarative notion of
well-formed UTF-8. -/
theorem validUtf8_iff_wellFormed (l : List Nat) :
    validUtf8 l = true ↔ Utf8WellFormed l :=
  ⟨validUtf8_sound, validUtf8_complete⟩

/-- ASCII-only byte sequences are valid UTF-8. -/
theorem validUtf8_of_ascii :
    ∀ {l : List Nat}, (∀ x ∈ l, x ≤ 0x7F) → validUtf8 l = true := by
  intro l
  induction l with
  | nil => intro _; exact validUtf8_nil
  | cons x xs ih =>
    intro h
    rw [validUtf8_cons_some (utf8Step_one (h x (by simp)) xs)]
    exact ih fun y hy => h y (by simp [hy])

/-! ## Helper lemmas on the derived comparisons -/

theorem beqBytes_iff : ∀ (a b : List Nat), beqBytes a b = true ↔ a = b := by
  intro a
  induction a with
  | nil => intro b; cases b <;> simp [beqBytes]
  | cons x xs ih =>
    intro b
    cases b with
    | nil => simp [beqBytes]
    | cons y ys =>
      simp [beqBytes, Bool.and_eq_true, beq_iff_eq, ih, List.cons.injEq]

theorem cmpBytes_eq_iff : ∀ (a b : List Nat),
    cmpBytes a b = Ordering.eq ↔ a = b := by
  intro a
  induction a with
  | nil => intro b; cases b <;> simp [cmpBytes]
  | cons x xs ih =>
    intro b
    cases b with
    | nil => simp [cmpBytes]
    | cons y ys =>
      simp only [cmpBytes]
      cases h : compare x y with
      | lt =>
        have hxy := Nat.compare_eq_lt.mp h
        simp only [List.cons.injEq]
        constructor
        · intro hc; cases hc
        · intro hc; omega
      | eq =>
        have hxy := Nat.compare_eq_eq.mp h
        subst hxy
        simp [ih]
      | gt =>
        have hxy := Nat.compare_eq_gt.mp h
        simp only [List.cons.injEq]
        constructor
        · intro hc; cases hc
        · intro hc; omega

theorem cmpBytes_lt_iff : ∀ (a b : List Nat),
    cmpBytes a b = Ordering.lt ↔ List.Lex (· < ·) a b := by
  intro a
  induction a with
  | nil =>
    intro b
    cases b with
    | nil =>
      simp only [cmpBytes]
      constructor
      · intro hc; cases hc
      · intro hlex; cases hlex
    | cons y ys =>
      simp only [cmpBytes]
      exact ⟨fun _ => List.Lex.nil, fun _ => trivial⟩
  | cons x xs ih =>
    intro b
    cases b with
    | nil =>
      simp only [cmpBytes]
      constructor
      · intro hc; cases hc
      · intro hlex; cases hlex
    | cons y ys =>
      simp only [cmpBytes]
      cases h : compare x y with
      | lt =>
        have hxy := Nat.compare_eq_lt.mp h
        exact ⟨fun _ => List.Lex.rel hxy, fun _ => rfl⟩
      | eq =>
        have hxy := Nat.compare_eq_eq.mp h
        subst hxy
        rw [ih]
        constructor
        · exact List.Lex.cons
        · intro hlex
          cases hlex with
          | cons hl => exact hl
          | rel hr => omega
      | gt =>
        have hxy := Nat.compare_eq_gt.mp h
        constructor
        · intro hc; cases hc
        · intro hlex
          cases hlex with
          | cons hl => omega
          | rel hr => omega

theorem cmpBytes_swap : ∀ (a b : List Nat),
    (cmpBytes a b).swap = cmpBytes b a := by
  intro a
  induction a with
  | nil => intro b; cases b <;> rfl
  | cons x xs ih =>
    intro b
    cases b with
    | nil => rfl
    | cons y ys =>
      simp only [cmpBytes]
      cases h : compare x y with
      | lt =>
        rw [Nat.compare_eq_gt.mpr (Nat.compare_eq_lt.mp h)]
        rfl
      | eq =>
        have hxy := Nat.compare_eq_eq.mp h
        subst hxy
        rw [Nat.compare_eq_eq.mpr rfl]
        exact ih ys
      | gt =>
        rw [Nat.compare_eq_lt.mpr (Nat.compare_eq_gt.mp h)]
        rfl

theorem cmpBytes_gt_iff : ∀ (a b : List Nat),
    cmpBytes a b = Ordering.gt ↔ List.Lex (· < ·) b a := by
  intro a b
  rw [← cmpBytes_lt_iff b a, ← cmpBytes_swap a b]
  cases cmpBytes a b <;> decide

/-! ## Concrete text values used by the spec's scenarios -/

/-- The text `"hello"` (bytes `[104, 101, 108, 108, 111]`). -/
def helloStr : RString :=
  ⟨[104, 101, 108, 108, 111], validUtf8_of_ascii (by decide)⟩

/-- The text `"abc"` (bytes `[97, 98, 99]`). -/
def abcStr : RString :=
  ⟨[97, 98, 99], validUtf8_of_ascii (by decide)⟩

/-- The text `"abd"` (bytes `[97, 98, 100]`). -/
def abdStr : RString :=
  ⟨[97, 98, 100], validUtf8_of_ascii (by decide)⟩

/-- A Rust iterator draining a list: `next` pops the head. -/
def listNext : List Nat → Option (Nat × List Nat)
  | [] => none
  | x :: xs => some (x, xs)

/-! ## Unfolding lemmas for the fallible conversion -/

theorem into_utf8_string_of_valid (b : ByteString)
    (h : validUtf8 b.bytes = true) :
    b.into_utf8_string = Except.ok ⟨b.bytes, h⟩ := by
  simp [ByteString.into_utf8_string, ByteString.into_bytes, fromUtf8, h,
    Except.mapError]

theorem into_utf8_string_of_invalid (b : ByteString)
    (h : validUtf8 b.bytes = false) :
    b.into_utf8_string = Except.error b := by
  simp [ByteString.into_utf8_string, ByteString.into_bytes, fromUtf8, h,
    Except.mapError]

/-! ## The collection loop of `FromIterator` -/

theorem collectFuel_of_produces {S : Type} {next : S → Option (Nat × S)} :
    ∀ {l : List Nat} {s : S}, Produces next s l →
      ∀ {fuel : Nat}, l.length ≤ fuel → collectFuel next fuel s = l := by
  intro l s hp
  induction hp with
  | done hnone =>
    intro fuel _
    cases fuel with
    | zero => rfl
    | succ n => simp [collectFuel, hnone]
  | step hsome _ ih =>
    intro fuel hf
    cases fuel with
    | zero => simp at hf
    | succ n =>
      simp only [collectFuel, hsome]
      rw [ih (by simp only [List.length_cons] at hf; omega)]

/-! ## Claims -/

/-- Claim C1: For every byte sequence `b` that is not well-formed UTF-8,
`from_bytes(b).into_utf8_string()` returns an error, and the byte content
of the `ByteString` carried in that error equals `b` exactly (lossless
failure, no mutation or truncation of the original bytes). -/
theorem into_utf8_string_fails_losslessly_on_invalid
    (b : List Nat) (h : ¬ Utf8WellFormed b) :
    ∃ e : ByteString,
      (ByteString.from_bytes b).into_utf8_string = Except.error e ∧
      e.into_bytes = b := by
  have hv : validUtf8 b = false := by
    cases hb : validUtf8 b
    · rfl
    · exact absurd (validUtf8_sound hb) h
  exact ⟨ByteString.from_bytes b, into_utf8_string_of_invalid _ hv, rfl⟩

/-- Witness for C1 at the spec's concrete scenario `[255, 50, 48, 49]`. -/
theorem into_utf8_string_fails_losslessly_on_invalid_witness :
    ∃ e : ByteString,
      (ByteString.from_bytes [255, 50, 48, 49]).into_utf8_string =
        Except.error e ∧
      e.into_bytes = [255, 50, 48, 49] := by
  refine into_utf8_string_fails_losslessly_on_invalid [255, 50, 48, 49] ?_
  intro hwf
  have h1 := validUtf8_complete hwf
  rw [validUtf8_cons_none (by decide)] at h1
  cases h1

/-- Claim C2: For every well-formed UTF-8 string `s`,
`from_bytes(s).into_utf8_string()` succeeds and the resulting string equals
`s` unchanged: its bytes are exactly the buffer's bytes. -/
theorem into_utf8_string_roundtrips_valid_utf8
    (b : List Nat) (h : Utf8WellFormed b) :
    (∃ s : RString,
      (ByteString.from_bytes b).into_utf8_string = Except.ok s ∧
      s.vec = b) ∧
    ∀ s : RString,
      (ByteString.from_bytes (intoVecOfString s)).into_utf8_string =
        Except.ok s := by
  have hv : validUtf8 b = true := validUtf8_complete h
  constructor
  · exact ⟨⟨b, hv⟩, into_utf8_string_of_valid _ hv, rfl⟩
  · intro s
    rw [into_utf8_string_of_valid _ s.valid]
    exact congrArg Except.ok (RString.ext_vec rfl)

/-- Witness for C2 at the spec's concrete scenario `"hello"` =
`[104, 101, 108, 108, 111]`. -/
theorem into_utf8_string_roundtrips_valid_utf8_witness :
    ∃ s : RString,
      (ByteString.from_bytes [104, 101, 108, 108, 111]).into_utf8_string =
        Except.ok s ∧
      s.vec = [104, 101, 108, 108, 111] :=
  (into_utf8_string_roundtrips_valid_utf8 [104, 101, 108, 108, 111]
    (validUtf8_sound (validUtf8_of_ascii (by decide)))).1

/-- Claim C3: For every admissible construction input (owned byte vector,
borrowed byte slice, owned string, borrowed string slice), `from_bytes`
produces a `ByteString` whose byte content equals the input's bytes exactly
and in order; in particular `from_bytes(b).into_bytes() == b` and
`from_bytes(b).as_bytes() == b`. -/
theorem from_bytes_preserves_input_bytes :
    (∀ v : List Nat,
      (ByteString.from_bytes (intoVecOfVec v)).into_bytes = v ∧
      (ByteString.from_bytes (intoVecOfVec v)).as_bytes = v) ∧
    (∀ s : List Nat,
      (ByteString.from_bytes (intoVecOfSlice s)).into_bytes = s) ∧
    (∀ t : RString,
      (ByteString.from_bytes (intoVecOfStr t)).into_bytes = t.vec) ∧
    (∀ u : RString,
      (ByteString.from_bytes (intoVecOfString u)).into_bytes = u.vec) :=
  ⟨fun _ => ⟨rfl, rfl⟩, fun _ => rfl, fun _ => rfl, fun _ => rfl⟩

/-- Claim C4: `from_bytes(b1) == from_bytes(b2)` iff `b1 == b2` elementwise,
and the hash of a `ByteString` is a function of its byte sequence alone, so
equal buffers produce equal hash values under any hasher. -/
theorem byteString_eq_iff_bytes_eq (b1 b2 : List Nat) :
    ((ByteString.from_bytes b1).beq (ByteString.from_bytes b2) = true ↔
      b1 = b2) ∧
    ∀ (H : Type) (hf : List Nat → H),
      (ByteString.from_bytes b1).beq (ByteString.from_bytes b2) = true →
      (ByteString.from_bytes b1).hash hf =
        (ByteString.from_bytes b2).hash hf := by
  refine ⟨beqBytes_iff b1 b2, ?_⟩
  intro H hf h
  have hb : b1 = b2 := (beqBytes_iff b1 b2).mp h
  subst hb
  rfl

/-- Witness for C4: equal concrete buffers have equal hash values. -/
theorem byteString_eq_iff_bytes_eq_witness :
    (ByteString.from_bytes [7, 8]).hash List.length =
      (ByteString.from_bytes [7, 8]).hash List.length :=
  (byteString_eq_iff_bytes_eq [7, 8] [7, 8]).2 Nat List.length (by decide)

/-- Claim C5: The comparison result of `from_bytes(b1)` versus
`from_bytes(b2)` equals the lexicographic comparison of `b1` and `b2` by
byte value. -/
theorem byteString_cmp_is_lexicographic (b1 b2 : List Nat) :
    ((ByteString.from_bytes b1).cmp (ByteString.from_bytes b2) =
        Ordering.lt ↔ List.Lex (· < ·) b1 b2) ∧
    ((ByteString.from_bytes b1).cmp (ByteString.from_bytes b2) =
        Ordering.eq ↔ b1 = b2) ∧
    ((ByteString.from_bytes b1).cmp (ByteString.from_bytes b2) =
        Ordering.gt ↔ List.Lex (· < ·) b2 b1) :=
  ⟨cmpBytes_lt_iff b1 b2, cmpBytes_eq_iff b1 b2, cmpBytes_gt_iff b1 b2⟩

/-- Claim C6: For all `0 ≤ i ≤ j ≤ len(b)`, the slicing operations return
exactly the corresponding sub-ranges of `b`: `slice_or_fail(i, j)` is
`b[i..j]`, `slice_from_or_fail(i)` is `b[i..len(b)]`, and
`slice_to_or_fail(j)` is `b[0..j]`. -/
theorem slice_ops_return_subranges (b : List Nat) (i j : Nat)
    (hij : i ≤ j) (hj : j ≤ b.length) :
    (∃ l, (ByteString.from_bytes b).slice_or_fail i j = some l ∧
      l.length = j - i ∧ ∀ k, k < j - i → l[k]? = b[i + k]?) ∧
    (∃ l, (ByteString.from_bytes b).slice_from_or_fail i = some l ∧
      l.length = b.length - i ∧
      ∀ k, k < b.length - i → l[k]? = b[i + k]?) ∧
    (∃ l, (ByteString.from_bytes b).slice_to_or_fail j = some l ∧
      l.length = j ∧ ∀ k, k < j → l[k]? = b[k]?) := by
  refine ⟨⟨(b.drop i).take (j - i), ?_, ?_, ?_⟩,
    ⟨b.drop i, ?_, ?_, ?_⟩, ⟨b.take j, ?_, ?_, ?_⟩⟩
  · show sliceOrFailList b i j = _
    rw [sliceOrFailList, if_pos ⟨hij, hj⟩]
  · rw [List.length_take, List.length_drop]
    omega
  · intro k hk
    rw [List.getElem?_take_of_lt hk, List.getElem?_drop]
  · show sliceFromOrFailList b i = _
    rw [sliceFromOrFailList, if_pos (by omega)]
  · rw [List.length_drop]
  · intro k _
    rw [List.getElem?_drop]
  · show sliceToOrFailList b j = _
    rw [sliceToOrFailList, if_pos hj]
  · rw [List.length_take]
    omega
  · intro k hk
    rw [List.getElem?_take_of_lt hk]

/-- Witness for C6 at `b = [10, 20, 30]`, `i = 1`, `j = 2`. -/
theorem slice_ops_return_subranges_witness :
    ∃ l, (ByteString.from_bytes [10, 20, 30]).slice_or_fail 1 2 = some l ∧
      l.length = 1 ∧ ∀ k, k < 1 → l[k]? = [10, 20, 30][1 + k]? :=
  (slice_ops_return_subranges [10, 20, 30] 1 2 (by omega) (by decide)).1

/-- Claim C7: Construction, length, emptiness, byte extraction, equality,
ordering, hashing and `equiv` are total functions of the embedding; the
only failure modes are the typed error of `into_utf8_string`, which occurs
exactly on non-well-formed content, and the fatal abort (`none`) of the
slicing operations, which occurs exactly when the bounds precondition
`0 ≤ start ≤ end ≤ len()` is violated — hence is unreachable when the
precondition holds. -/
theorem slice_abort_iff_out_of_bounds (b : ByteString) (i j : Nat) :
    ((b.slice_or_fail i j).isSome ↔ i ≤ j ∧ j ≤ b.len) ∧
    ((b.slice_from_or_fail i).isSome ↔ i ≤ b.len) ∧
    ((b.slice_to_or_fail j).isSome ↔ j ≤ b.len) ∧
    ((∃ e, b.into_utf8_string = Except.error e) ↔
      ¬ Utf8WellFormed b.bytes) := by
  refine ⟨?_, ?_, ?_, ?_⟩
  · show (sliceOrFailList b.bytes i j).isSome ↔ _
    rw [sliceOrFailList]
    split
    · next hc => simpa using hc
    · next hc => simpa using hc
  · show (sliceFromOrFailList b.bytes i).isSome ↔ _
    rw [sliceFromOrFailList]
    split
    · next hc => simpa using hc
    · next hc => simpa using hc
  · show (sliceToOrFailList b.bytes j).isSome ↔ _
    rw [sliceToOrFailList]
    split
    · next hc => simpa using hc
    · next hc => simpa using hc
  · cases hv : validUtf8 b.bytes
    · constructor
      · intro _
        intro hwf
        rw [validUtf8_complete hwf] at hv
        cases hv
      · intro _
        exact ⟨b, into_utf8_string_of_invalid b hv⟩
    · constructor
      · intro ⟨e, he⟩
        rw [into_utf8_string_of_valid b hv] at he
        cases he
      · intro hn
        exact absurd (validUtf8_sound hv) hn

/-- Claim C8: `buffer.equiv(s)` returns true iff the buffer's raw bytes equal
the UTF-8 byte encoding of the text `s` exactly; a buffer from
`[97, 98, 99]` is equiv to `"abc"` and not to `"abd"`. -/
theorem equiv_iff_bytes_match_text :
    (∀ (b : ByteString) (s : RString),
      b.equiv s = true ↔ b.as_bytes = strAsBytes s) ∧
    (ByteString.from_bytes [97, 98, 99]).equiv abcStr = true ∧
    (ByteString.from_bytes [97, 98, 99]).equiv abdStr = false := by
  refine ⟨fun b s => beqBytes_iff _ _, by decide, by decide⟩

/-- Claim C9: Building a `ByteString` from an iterator consumes the produced
finite sequence fully and yields a buffer whose byte content equals the
produced sequence one-to-one and in production order. -/
theorem from_iter_collects_in_order {S : Type}
    (next : S → Option (Nat × S)) (s0 : S) (l : List Nat) (fuel : Nat)
    (hp : Produces next s0 l) (hf : l.length ≤ fuel) :
    (ByteString.from_iter next fuel s0).into_bytes = l :=
  collectFuel_of_produces hp hf

/-- Witness for C9: the list-draining iterator over `[5, 6]`. -/
theorem from_iter_collects_in_order_witness :
    (ByteString.from_iter listNext 2 [5, 6]).into_bytes = [5, 6] :=
  from_iter_collects_in_order listNext [5, 6] [5, 6] 2
    (Produces.step rfl (Produces.step rfl (Produces.done rfl)))
    (by decide)

/-- Claim C10: All borrowed-view access paths agree: `as_bytes()`, the
`Deref` view, `AsSlice::as_slice()` and `Slice::as_slice_()` return the
same byte sequence (the wrapped vector), `len()` is its length, and
`is_empty()` holds iff that length is `0`. -/
theorem views_agree (b : ByteString) :
    b.as_bytes = b.bytes ∧ b.deref = b.as_bytes ∧
    b.as_slice = b.as_bytes ∧ b.as_slice_ = b.as_bytes ∧
    b.len = b.as_bytes.length ∧ (b.is_empty = true ↔ b.len = 0) := by
  refine ⟨rfl, rfl, rfl, rfl, rfl, ?_⟩
  simp [ByteString.is_empty]

end RustCsv
